import Mathlib

/-!
Shallow embedding of `src/conversion.py` (a parallel FLAC → Opus batch
transcoder) and proofs of the specification claims about it.

Modelling choices:
* A `pathlib.Path` is modelled by `PPath`: its parent directory (as a string),
  its stem and its suffix, exactly the three pieces the program manipulates
  (`with_suffix` replaces the suffix, `.name` is stem ++ suffix).
* The filesystem is the list of existing file paths plus the list of existing
  directories; `Path.exists()` is list membership.
* Each external `subprocess.run` invocation is resolved by an oracle
  `PPath → ToolResult`: `success` models a zero exit status,
  `calledProcessError` models `subprocess.CalledProcessError` (non-zero exit,
  raised because of `check=True`), `otherException` models any other exception
  raised during the invocation.  Whether a successful cover-extraction run
  actually wrote the sibling `.jpg` (ffmpeg exits 0 with no output when the
  input has no image stream) is a separate oracle `PPath → Bool`.
* Every side-effecting function also returns the updated filesystem and the
  list of external commands it spawned, so that "zero writes / zero spawns"
  claims are statable.
* The `ProcessPoolExecutor` / `as_completed` loop of `main` is modelled by a
  fold over the completion order, an arbitrary permutation of the discovered
  list; a future whose `result()` raises is modelled by the `raises` oracle.
  Each task reads and writes only paths derived from its own input file, so
  linearising the concurrent tasks in completion order is faithful.
-/

/-- Model of `str.startswith` / path-prefix tests, defined over the character
list so that it evaluates by kernel reduction. -/
def strStartsWith (s pat : String) : Bool :=
  List.isPrefixOf pat.data s.data

/-- A filesystem path, split the way `pathlib` views it: parent directory,
stem, and suffix (`ext`).  `with_suffix` replaces `ext`; `name` is
`stem ++ ext`. -/
structure PPath where
  dir : String
  stem : String
  ext : String
deriving DecidableEq, Repr

namespace PPath

/-- Model of `pathlib.Path.with_suffix`: replace the suffix. -/
def withSuffix (p : PPath) (s : String) : PPath :=
  { p with ext := s }

/-- Model of `pathlib.Path.name`: final component, stem plus suffix. -/
def name (p : PPath) : String :=
  p.stem ++ p.ext

/-- Model of `str(path)`, used when building the ffmpeg command line. -/
def toStr (p : PPath) : String :=
  p.dir ++ "/" ++ p.stem ++ p.ext

end PPath

@[simp] theorem PPath.withSuffix_ext (p : PPath) (s : String) :
    (p.withSuffix s).ext = s := rfl

/-- Result of one `subprocess.run(cmd, check=True, ...)` invocation:
zero exit status, `CalledProcessError` (non-zero exit, with return code and
captured stderr), or any other exception raised during the invocation. -/
inductive ToolResult where
  | success : ToolResult
  | calledProcessError : Int → String → ToolResult
  | otherException : String → ToolResult
deriving DecidableEq, Repr

/-- The ffmpeg command line built by `extract_cover` (source lines 26–33). -/
def coverCmd (flac_path cover_jpg : PPath) : List String :=
  ["ffmpeg", "-hide_banner", "-loglevel", "warning",
   "-i", flac_path.toStr, "-map", "0:v?", "-c:v", "mjpeg", cover_jpg.toStr]

/-- The ffmpeg command line built by `convert_file` (source lines 70–84). -/
def flacCmd (flac_path opus_path : PPath) (bitrate : String) : List String :=
  ["ffmpeg", "-hide_banner", "-loglevel", "warning", "-f", "flac",
   "-analyzeduration", "10000000", "-probesize", "20000000",
   "-i", flac_path.toStr, "-map", "0:a", "-map_metadata", "0",
   "-c:a", "libopus", "-b:a", bitrate, "-vbr", "on", "-threads", "0",
   opus_path.toStr]

/-- Embedding of `extract_cover` (source lines 17–46).  Parameters: `co`
resolves the subprocess invocation, `cw` tells whether a successful invocation
actually wrote the `.jpg` (ffmpeg writes no output when the source has no
image stream), `fs` is the filesystem.  Returns the function's boolean result,
the updated filesystem, and the spawned commands.  The `try/except` of lines
41–46 catches every exception and returns `False`. -/
def extract_cover (co : PPath → ToolResult) (cw : PPath → Bool)
    (fs : List PPath) (flac_path : PPath) (dry_run : Bool) :
    Bool × List PPath × List (List String) :=
  let cover_jpg := flac_path.withSuffix ".jpg"
  if fs.contains cover_jpg then
    (false, fs, [])
  else if dry_run then
    (true, fs, [])
  else
    match co flac_path with
    | ToolResult.success =>
        (true, (if cw flac_path then cover_jpg :: fs else fs),
         [coverCmd flac_path cover_jpg])
    | ToolResult.calledProcessError _ _ => (false, fs, [coverCmd flac_path cover_jpg])
    | ToolResult.otherException _ => (false, fs, [coverCmd flac_path cover_jpg])

/-- Embedding of `convert_file` (source lines 49–104).  `tr` resolves the
transcode subprocess invocation.  Returns the `(converted, skipped, error)`
tuple, the updated filesystem, and the spawned commands.  A successful
transcode writes `opus_path`. -/
def convert_file (co : PPath → ToolResult) (cw : PPath → Bool)
    (tr : PPath → ToolResult) (fs : List PPath) (flac_path : PPath)
    (bitrate : String) (dry_run : Bool) :
    (Bool × Bool × Bool) × List PPath × List (List String) :=
  let opus_path := flac_path.withSuffix ".opus"
  if strStartsWith flac_path.name "._" then
    ((false, true, false), fs, [])
  else if fs.contains opus_path then
    ((false, true, false), fs, [])
  else
    let ec := extract_cover co cw fs flac_path dry_run
    let fs1 := ec.2.1
    let sp1 := ec.2.2
    if dry_run then
      ((true, false, false), fs1, sp1)
    else
      match tr flac_path with
      | ToolResult.success =>
          ((true, false, false), opus_path :: fs1,
           sp1 ++ [flacCmd flac_path opus_path bitrate])
      | ToolResult.calledProcessError _ _ =>
          ((false, false, true), fs1, sp1 ++ [flacCmd flac_path opus_path bitrate])
      | ToolResult.otherException _ =>
          ((false, false, true), fs1, sp1 ++ [flacCmd flac_path opus_path bitrate])

/-- The filesystem: the existing files and the existing directories. -/
structure FileSys where
  files : List PPath
  dirs : List String
deriving DecidableEq, Repr

/-- Embedding of `gather_flac_files` (source lines 107–109):
`root.rglob('*.flac')` returns the files in the subtree of `root` whose name
matches the (case-sensitive) pattern `*.flac`, i.e. whose suffix is exactly
`.flac`. -/
def gather_flac_files (fsys : FileSys) (root : String) : List PPath :=
  fsys.files.filter (fun p => strStartsWith p.dir root && p.ext == ".flac")

/-- The mutable state of `main`'s aggregation loop (source lines 132–150)
together with the filesystem and spawn trace the tasks accumulate. -/
structure RunState where
  fs : List PPath
  spawned : List (List String)
  converted : Nat
  skipped : Nat
  errors : Nat
deriving DecidableEq, Repr

/-- One iteration of the `as_completed` loop (source lines 138–150) for the
task of file `p`: if the future's `result()` raises (`raises p`), the
`except` branch increments `errors`; otherwise the returned tuple is
classified by the `if/elif` chain. -/
def stepTask (co : PPath → ToolResult) (cw : PPath → Bool)
    (tr : PPath → ToolResult) (raises : PPath → Bool)
    (bitrate : String) (dry_run : Bool) (st : RunState) (p : PPath) : RunState :=
  if raises p then
    { st with errors := st.errors + 1 }
  else
    let r := convert_file co cw tr st.fs p bitrate dry_run
    let st1 : RunState :=
      { st with fs := r.2.1, spawned := st.spawned ++ r.2.2 }
    let did_convert := r.1.1
    let did_skip := r.1.2.1
    let did_error := r.1.2.2
    if did_convert then { st1 with converted := st1.converted + 1 }
    else if did_skip then { st1 with skipped := st1.skipped + 1 }
    else if did_error then { st1 with errors := st1.errors + 1 }
    else st1

/-- Drain the completed futures in the given completion order, starting from
state `st`. -/
def runTasksFrom (co : PPath → ToolResult) (cw : PPath → Bool)
    (tr : PPath → ToolResult) (raises : PPath → Bool)
    (bitrate : String) (dry_run : Bool) (st : RunState)
    (order : List PPath) : RunState :=
  order.foldl (stepTask co cw tr raises bitrate dry_run) st

/-- A whole dispatch run (source lines 132–150): counters start at zero, the
filesystem starts at `fs0`, nothing spawned yet; `order` is the completion
order of the futures, a permutation of the submitted list. -/
def runTasks (co : PPath → ToolResult) (cw : PPath → Bool)
    (tr : PPath → ToolResult) (raises : PPath → Bool)
    (bitrate : String) (dry_run : Bool) (fs0 : List PPath)
    (order : List PPath) : RunState :=
  runTasksFrom co cw tr raises bitrate dry_run
    { fs := fs0, spawned := [], converted := 0, skipped := 0, errors := 0 } order

/-- The observable outcome of one invocation of `main` (source lines
112–155): the process exit status, the discovered list (`none` when the run
aborted before discovery), the three counters, the final filesystem and the
spawned commands. -/
structure MainResult where
  exitCode : Nat
  discovered : Option (List PPath)
  converted : Nat
  skipped : Nat
  errors : Nat
  fsOut : List PPath
  spawned : List (List String)
deriving DecidableEq, Repr

/-- Embedding of `main` (source lines 112–155).  `root.is_dir()` is
membership in `fsys.dirs`; an invalid root exits 1 before discovery
(line 123); an empty discovery returns (exit status 0) before the pool is
created (line 130); otherwise the tasks are drained in completion order
`order` and the exit status is 1 exactly when `errors > 0` (lines 154–155). -/
def mainRun (fsys : FileSys) (root : String) (co : PPath → ToolResult)
    (cw : PPath → Bool) (tr : PPath → ToolResult) (raises : PPath → Bool)
    (bitrate : String) (dry_run : Bool) (order : List PPath) : MainResult :=
  if fsys.dirs.contains root then
    let flac_list := gather_flac_files fsys root
    if flac_list.length = 0 then
      { exitCode := 0, discovered := some flac_list, converted := 0,
        skipped := 0, errors := 0, fsOut := fsys.files, spawned := [] }
    else
      let fin := runTasks co cw tr raises bitrate dry_run fsys.files order
      { exitCode := if fin.errors > 0 then 1 else 0,
        discovered := some flac_list, converted := fin.converted,
        skipped := fin.skipped, errors := fin.errors,
        fsOut := fin.fs, spawned := fin.spawned }
  else
    { exitCode := 1, discovered := none, converted := 0, skipped := 0,
      errors := 0, fsOut := fsys.files, spawned := [] }

/-- Exactly one component of a `(converted, skipped, error)` tuple is set. -/
def oneHot (t : Bool × Bool × Bool) : Bool :=
  match t with
  | (true, false, false) => true
  | (false, true, false) => true
  | (false, false, true) => true
  | _ => false

/-- Modelled from the spec, section 4.3: the per-item policy as the spec
words it — a strict first-match-wins sequence: (1) platform-sidecar name
pattern → `Skipped`, no further work; (2) derived output already exists →
`Skipped`; (3) otherwise attempt cover extraction (best-effort); (4) then
attempt the audio transcode: success → `Converted`, non-zero exit or any
unexpected exception → `Errored`.  Stated for a real (non-dry) run. -/
def policySpec (co : PPath → ToolResult) (cw : PPath → Bool)
    (tr : PPath → ToolResult) (fs : List PPath) (p : PPath)
    (bitrate : String) : (Bool × Bool × Bool) × List PPath × List (List String) :=
  if strStartsWith p.name "._" then
    ((false, true, false), fs, [])
  else if fs.contains (p.withSuffix ".opus") then
    ((false, true, false), fs, [])
  else
    let afterCover := extract_cover co cw fs p false
    let cmd := flacCmd p (p.withSuffix ".opus") bitrate
    match tr p with
    | ToolResult.success =>
        ((true, false, false), p.withSuffix ".opus" :: afterCover.2.1,
         afterCover.2.2 ++ [cmd])
    | ToolResult.calledProcessError _ _ =>
        ((false, false, true), afterCover.2.1, afterCover.2.2 ++ [cmd])
    | ToolResult.otherException _ =>
        ((false, false, true), afterCover.2.1, afterCover.2.2 ++ [cmd])

/-! ### Basic lemmas about `convert_file` -/

theorem convert_file_oneHot (co : PPath → ToolResult) (cw : PPath → Bool)
    (tr : PPath → ToolResult) (fs : List PPath) (p : PPath)
    (b : String) (d : Bool) :
    oneHot (convert_file co cw tr fs p b d).1 = true := by
  unfold convert_file
  by_cases h1 : strStartsWith p.name "._" = true
  · simp [h1, oneHot]
  · by_cases h2 : p.withSuffix ".opus" ∈ fs
    · simp [h1, h2, oneHot]
    · by_cases h3 : d = true
      · simp [h1, h2, h3, oneHot]
      · cases htr : tr p <;> simp [h1, h2, h3, htr, oneHot]

theorem convert_file_skip_sidecar (co : PPath → ToolResult) (cw : PPath → Bool)
    (tr : PPath → ToolResult) (fs : List PPath) (p : PPath)
    (b : String) (d : Bool) (h : strStartsWith p.name "._" = true) :
    convert_file co cw tr fs p b d = ((false, true, false), fs, []) := by
  unfold convert_file
  simp [h]

theorem convert_file_skip_exists (co : PPath → ToolResult) (cw : PPath → Bool)
    (tr : PPath → ToolResult) (fs : List PPath) (p : PPath)
    (b : String) (d : Bool) (h : p.withSuffix ".opus" ∈ fs) :
    convert_file co cw tr fs p b d = ((false, true, false), fs, []) := by
  unfold convert_file
  by_cases h1 : strStartsWith p.name "._" = true <;> simp [h1, h]

theorem extract_cover_fs_mono (co : PPath → ToolResult) (cw : PPath → Bool)
    (fs : List PPath) (p : PPath) (d : Bool) (q : PPath) (hq : q ∈ fs) :
    q ∈ (extract_cover co cw fs p d).2.1 := by
  unfold extract_cover
  by_cases h1 : p.withSuffix ".jpg" ∈ fs
  · simpa [h1]
  · by_cases h2 : d = true
    · simpa [h1, h2]
    · cases hco : co p <;> by_cases h3 : cw p = true <;>
        simp_all [List.mem_cons]

theorem extract_cover_fs_new (co : PPath → ToolResult) (cw : PPath → Bool)
    (fs : List PPath) (p : PPath) (d : Bool) (q : PPath)
    (hq : q ∈ (extract_cover co cw fs p d).2.1) :
    q ∈ fs ∨ q = p.withSuffix ".jpg" := by
  unfold extract_cover at hq
  by_cases h1 : p.withSuffix ".jpg" ∈ fs
  · simp [h1] at hq; exact Or.inl hq
  · by_cases h2 : d = true
    · simp [h1, h2] at hq; exact Or.inl hq
    · cases hco : co p <;> by_cases h3 : cw p = true <;>
        (simp_all [List.mem_cons]; try tauto)

theorem convert_file_fs_mono (co : PPath → ToolResult) (cw : PPath → Bool)
    (tr : PPath → ToolResult) (fs : List PPath) (p : PPath)
    (b : String) (d : Bool) (q : PPath) (hq : q ∈ fs) :
    q ∈ (convert_file co cw tr fs p b d).2.1 := by
  unfold convert_file
  by_cases h1 : strStartsWith p.name "._" = true
  · simpa [h1]
  · by_cases h2 : p.withSuffix ".opus" ∈ fs
    · simpa [h1, h2]
    · cases d
      · have hc := extract_cover_fs_mono co cw fs p false q hq
        cases htr : tr p <;> simp [h1, h2, htr, List.mem_cons] <;> tauto
      · have hc := extract_cover_fs_mono co cw fs p true q hq
        simpa [h1, h2] using hc

theorem convert_file_fs_new (co : PPath → ToolResult) (cw : PPath → Bool)
    (tr : PPath → ToolResult) (fs : List PPath) (p : PPath)
    (b : String) (d : Bool) (q : PPath)
    (hq : q ∈ (convert_file co cw tr fs p b d).2.1) :
    q ∈ fs ∨ q = p.withSuffix ".opus" ∨ q = p.withSuffix ".jpg" := by
  unfold convert_file at hq
  by_cases h1 : strStartsWith p.name "._" = true
  · simp [h1] at hq; exact Or.inl hq
  · by_cases h2 : p.withSuffix ".opus" ∈ fs
    · simp [h1, h2] at hq; exact Or.inl hq
    · cases d
      · cases htr : tr p <;> simp [h1, h2, htr, List.mem_cons] at hq
        · rcases hq with h | h
          · exact Or.inr (Or.inl h)
          · rcases extract_cover_fs_new co cw fs p false q h with h2' | h2'
            · exact Or.inl h2'
            · exact Or.inr (Or.inr h2')
        · rcases extract_cover_fs_new co cw fs p false q hq with h2' | h2'
          · exact Or.inl h2'
          · exact Or.inr (Or.inr h2')
        · rcases extract_cover_fs_new co cw fs p false q hq with h2' | h2'
          · exact Or.inl h2'
          · exact Or.inr (Or.inr h2')
      · simp [h1, h2] at hq
        rcases extract_cover_fs_new co cw fs p true q hq with h | h
        · exact Or.inl h
        · exact Or.inr (Or.inr h)

theorem oneHot_elim (t : Bool × Bool × Bool) (h : oneHot t = true) :
    t = (true, false, false) ∨ t = (false, true, false) ∨ t = (false, false, true) := by
  rcases t with ⟨a, b2, c⟩
  cases a <;> cases b2 <;> cases c <;> simp_all [oneHot]

theorem convert_file_converted_fs (co : PPath → ToolResult) (cw : PPath → Bool)
    (tr : PPath → ToolResult) (fs : List PPath) (p : PPath) (b : String)
    (h : (convert_file co cw tr fs p b false).1 = (true, false, false)) :
    p.withSuffix ".opus" ∈ (convert_file co cw tr fs p b false).2.1 := by
  unfold convert_file at h ⊢
  by_cases h1 : strStartsWith p.name "._" = true
  · simp [h1] at h
  · by_cases h2 : p.withSuffix ".opus" ∈ fs
    · simp [h1, h2] at h
    · cases htr : tr p <;> simp_all [h1, h2, htr, List.mem_cons]

theorem convert_file_skipped_inv (co : PPath → ToolResult) (cw : PPath → Bool)
    (tr : PPath → ToolResult) (fs : List PPath) (p : PPath) (b : String) (d : Bool)
    (h : (convert_file co cw tr fs p b d).1 = (false, true, false)) :
    strStartsWith p.name "._" = true ∨ p.withSuffix ".opus" ∈ fs := by
  by_cases h1 : strStartsWith p.name "._" = true
  · exact Or.inl h1
  · by_cases h2 : p.withSuffix ".opus" ∈ fs
    · exact Or.inr h2
    · exfalso
      unfold convert_file at h
      cases d
      · cases htr : tr p <;> simp_all [h1, h2, htr]
      · simp_all [h1, h2]

theorem convert_file_dry (co : PPath → ToolResult) (cw : PPath → Bool)
    (tr : PPath → ToolResult) (fs : List PPath) (p : PPath) (b : String) :
    (convert_file co cw tr fs p b true).2.1 = fs ∧
      (convert_file co cw tr fs p b true).2.2 = [] := by
  unfold convert_file extract_cover
  by_cases h1 : strStartsWith p.name "._" = true
  · simp [h1]
  · by_cases h2 : p.withSuffix ".opus" ∈ fs
    · simp [h1, h2]
    · by_cases h3 : p.withSuffix ".jpg" ∈ fs <;> simp [h1, h2, h3]

/-! ### Lemmas about one dispatcher step and the completion fold -/

theorem stepTask_sum (co : PPath → ToolResult) (cw : PPath → Bool)
    (tr : PPath → ToolResult) (raises : PPath → Bool) (b : String) (d : Bool)
    (st : RunState) (p : PPath) :
    (stepTask co cw tr raises b d st p).converted +
      (stepTask co cw tr raises b d st p).skipped +
      (stepTask co cw tr raises b d st p).errors =
      st.converted + st.skipped + st.errors + 1 := by
  unfold stepTask
  by_cases hr : raises p = true
  · simp [hr]; omega
  · have h1 := convert_file_oneHot co cw tr st.fs p b d
    rcases oneHot_elim _ h1 with h | h | h <;> simp [hr, h] <;> omega

theorem stepTask_fs_mono (co : PPath → ToolResult) (cw : PPath → Bool)
    (tr : PPath → ToolResult) (raises : PPath → Bool) (b : String) (d : Bool)
    (st : RunState) (p : PPath) (q : PPath) (hq : q ∈ st.fs) :
    q ∈ (stepTask co cw tr raises b d st p).fs := by
  unfold stepTask
  by_cases hr : raises p = true
  · simpa [hr]
  · have hc := convert_file_fs_mono co cw tr st.fs p b d q hq
    have h1 := convert_file_oneHot co cw tr st.fs p b d
    rcases oneHot_elim _ h1 with h | h | h <;> simp [hr, h] <;> exact hc

theorem stepTask_errors_mono (co : PPath → ToolResult) (cw : PPath → Bool)
    (tr : PPath → ToolResult) (raises : PPath → Bool) (b : String) (d : Bool)
    (st : RunState) (p : PPath) :
    st.errors ≤ (stepTask co cw tr raises b d st p).errors := by
  unfold stepTask
  by_cases hr : raises p = true
  · simp [hr]
  · have h1 := convert_file_oneHot co cw tr st.fs p b d
    rcases oneHot_elim _ h1 with h | h | h <;> simp [hr, h]

theorem runTasksFrom_nil (co : PPath → ToolResult) (cw : PPath → Bool)
    (tr : PPath → ToolResult) (raises : PPath → Bool) (b : String) (d : Bool)
    (st : RunState) :
    runTasksFrom co cw tr raises b d st [] = st := rfl

theorem runTasksFrom_cons (co : PPath → ToolResult) (cw : PPath → Bool)
    (tr : PPath → ToolResult) (raises : PPath → Bool) (b : String) (d : Bool)
    (st : RunState) (p : PPath) (rest : List PPath) :
    runTasksFrom co cw tr raises b d st (p :: rest) =
      runTasksFrom co cw tr raises b d (stepTask co cw tr raises b d st p) rest := rfl

theorem runTasksFrom_sum (co : PPath → ToolResult) (cw : PPath → Bool)
    (tr : PPath → ToolResult) (raises : PPath → Bool) (b : String) (d : Bool)
    (order : List PPath) :
    ∀ st : RunState,
      (runTasksFrom co cw tr raises b d st order).converted +
        (runTasksFrom co cw tr raises b d st order).skipped +
        (runTasksFrom co cw tr raises b d st order).errors =
        st.converted + st.skipped + st.errors + order.length := by
  induction order with
  | nil => intro st; simp [runTasksFrom_nil]
  | cons p rest ih =>
      intro st
      rw [runTasksFrom_cons]
      rw [ih (stepTask co cw tr raises b d st p)]
      rw [stepTask_sum]
      simp [List.length_cons]
      omega

theorem runTasksFrom_fs_mono (co : PPath → ToolResult) (cw : PPath → Bool)
    (tr : PPath → ToolResult) (raises : PPath → Bool) (b : String) (d : Bool)
    (order : List PPath) :
    ∀ st : RunState, ∀ q ∈ st.fs,
      q ∈ (runTasksFrom co cw tr raises b d st order).fs := by
  induction order with
  | nil => intro st q hq; simpa [runTasksFrom_nil]
  | cons p rest ih =>
      intro st q hq
      rw [runTasksFrom_cons]
      exact ih _ q (stepTask_fs_mono co cw tr raises b d st p q hq)

theorem runTasksFrom_errors_mono (co : PPath → ToolResult) (cw : PPath → Bool)
    (tr : PPath → ToolResult) (raises : PPath → Bool) (b : String) (d : Bool)
    (order : List PPath) :
    ∀ st : RunState,
      st.errors ≤ (runTasksFrom co cw tr raises b d st order).errors := by
  induction order with
  | nil => intro st; simp [runTasksFrom_nil]
  | cons p rest ih =>
      intro st
      rw [runTasksFrom_cons]
      exact le_trans (stepTask_errors_mono co cw tr raises b d st p) (ih _)

theorem stepTask_fs_eq (co : PPath → ToolResult) (cw : PPath → Bool)
    (tr : PPath → ToolResult) (raises : PPath → Bool) (b : String) (d : Bool)
    (st : RunState) (p : PPath) (hr : raises p = false) :
    (stepTask co cw tr raises b d st p).fs = (convert_file co cw tr st.fs p b d).2.1 := by
  unfold stepTask
  have h1 := convert_file_oneHot co cw tr st.fs p b d
  rcases oneHot_elim _ h1 with h | h | h <;> simp [hr, h]

theorem stepTask_raise (co : PPath → ToolResult) (cw : PPath → Bool)
    (tr : PPath → ToolResult) (raises : PPath → Bool) (b : String) (d : Bool)
    (st : RunState) (p : PPath) (hr : raises p = true) :
    stepTask co cw tr raises b d st p = { st with errors := st.errors + 1 } := by
  unfold stepTask
  simp [hr]

theorem stepTask_error_count (co : PPath → ToolResult) (cw : PPath → Bool)
    (tr : PPath → ToolResult) (raises : PPath → Bool) (b : String) (d : Bool)
    (st : RunState) (p : PPath) (hr : raises p = false)
    (h : (convert_file co cw tr st.fs p b d).1 = (false, false, true)) :
    (stepTask co cw tr raises b d st p).errors = st.errors + 1 := by
  unfold stepTask
  simp [hr, h]

/-- If a segment of the completion loop adds no errors, every file in it was
either a sidecar or has its output present in the final filesystem. -/
theorem runTasksFrom_no_new_errors (co : PPath → ToolResult) (cw : PPath → Bool)
    (tr : PPath → ToolResult) (raises : PPath → Bool) (b : String)
    (order : List PPath) :
    ∀ st : RunState,
      (runTasksFrom co cw tr raises b false st order).errors = st.errors →
      ∀ p ∈ order, strStartsWith p.name "._" = true ∨
        p.withSuffix ".opus" ∈ (runTasksFrom co cw tr raises b false st order).fs := by
  induction order with
  | nil => intro st _ p hp; simp at hp
  | cons q rest ih =>
      intro st h p hp
      rw [runTasksFrom_cons] at h ⊢
      have hmono1 := stepTask_errors_mono co cw tr raises b false st q
      have hmono2 := runTasksFrom_errors_mono co cw tr raises b false rest
        (stepTask co cw tr raises b false st q)
      have hEq : (stepTask co cw tr raises b false st q).errors = st.errors := by omega
      by_cases hr : raises q = true
      · exfalso
        rw [stepTask_raise co cw tr raises b false st q hr] at hEq
        simp at hEq
      · have hrf : raises q = false := by simpa using hr
        rcases List.mem_cons.mp hp with hpq | hpr
        · subst hpq
          have h1 := convert_file_oneHot co cw tr st.fs p b false
          rcases oneHot_elim _ h1 with hcase | hcase | hcase
          · right
            have hopus := convert_file_converted_fs co cw tr st.fs p b hcase
            rw [← stepTask_fs_eq co cw tr raises b false st p hrf] at hopus
            exact runTasksFrom_fs_mono co cw tr raises b false rest _ _ hopus
          · rcases convert_file_skipped_inv co cw tr st.fs p b false hcase with hside | hmem
            · exact Or.inl hside
            · right
              have hstep := stepTask_fs_mono co cw tr raises b false st p _ hmem
              exact runTasksFrom_fs_mono co cw tr raises b false rest _ _ hstep
          · exfalso
            have := stepTask_error_count co cw tr raises b false st p hrf hcase
            omega
        · exact ih _ (by omega) p hpr

/-- If every file in the segment is a sidecar or already has its output, the
whole segment only increments the skip counter. -/
theorem runTasksFrom_all_skip (co : PPath → ToolResult) (cw : PPath → Bool)
    (tr : PPath → ToolResult) (b : String) (d : Bool) (order : List PPath) :
    ∀ st : RunState,
      (∀ p ∈ order, strStartsWith p.name "._" = true ∨ p.withSuffix ".opus" ∈ st.fs) →
      runTasksFrom co cw tr (fun _ => false) b d st order =
        { st with skipped := st.skipped + order.length } := by
  induction order with
  | nil => intro st _; simp [runTasksFrom_nil]
  | cons q rest ih =>
      intro st h
      rw [runTasksFrom_cons]
      have hq := h q (List.mem_cons_self q rest)
      have hstep : stepTask co cw tr (fun _ => false) b d st q =
          { st with skipped := st.skipped + 1 } := by
        rcases hq with h1 | h1
        · simp [stepTask, convert_file_skip_sidecar co cw tr st.fs q b d h1]
        · simp [stepTask, convert_file_skip_exists co cw tr st.fs q b d h1]
      rw [hstep]
      rw [ih { st with skipped := st.skipped + 1 }
        (fun p hp => h p (List.mem_cons_of_mem q hp))]
      simp [List.length_cons]
      omega

theorem stepTask_dry (co : PPath → ToolResult) (cw : PPath → Bool)
    (tr : PPath → ToolResult) (raises : PPath → Bool) (b : String)
    (st : RunState) (p : PPath) :
    (stepTask co cw tr raises b true st p).fs = st.fs ∧
      (stepTask co cw tr raises b true st p).spawned = st.spawned := by
  unfold stepTask
  by_cases hr : raises p = true
  · simp [hr]
  · have hd := convert_file_dry co cw tr st.fs p b
    have h1 := convert_file_oneHot co cw tr st.fs p b true
    rcases oneHot_elim _ h1 with h | h | h <;> simp [hr, h, hd.1, hd.2]

/-- A dry run leaves the filesystem untouched and spawns nothing. -/
theorem runTasksFrom_dry (co : PPath → ToolResult) (cw : PPath → Bool)
    (tr : PPath → ToolResult) (raises : PPath → Bool) (b : String)
    (order : List PPath) :
    ∀ st : RunState,
      (runTasksFrom co cw tr raises b true st order).fs = st.fs ∧
        (runTasksFrom co cw tr raises b true st order).spawned = st.spawned := by
  induction order with
  | nil => intro st; simp [runTasksFrom_nil]
  | cons q rest ih =>
      intro st
      rw [runTasksFrom_cons]
      have hd := stepTask_dry co cw tr raises b st q
      have := ih (stepTask co cw tr raises b true st q)
      exact ⟨by rw [this.1, hd.1], by rw [this.2, hd.2]⟩

/-! ### Snapshot lemmas: distinct files do not disturb each other -/

/-- Two paths with different directory or different stem. -/
def keyNe (p q : PPath) : Prop :=
  p.dir ≠ q.dir ∨ p.stem ≠ q.stem

theorem withSuffix_ne_of_keyNe (p q : PPath) (s : String) (h : keyNe p q) :
    p.withSuffix s ≠ q.withSuffix s := by
  intro hc
  unfold PPath.withSuffix at hc
  rcases h with h | h <;> simp_all

theorem withSuffix_ne_of_ext_ne (p q : PPath) (s s2 : String) (h : s ≠ s2) :
    p.withSuffix s ≠ q.withSuffix s2 := by
  intro hc
  unfold PPath.withSuffix at hc
  simp_all

theorem convert_file_fs_mem_iff (co : PPath → ToolResult) (cw : PPath → Bool)
    (tr : PPath → ToolResult) (fs : List PPath) (p : PPath) (b : String)
    (d : Bool) (q : PPath) (hq1 : q ≠ p.withSuffix ".opus")
    (hq2 : q ≠ p.withSuffix ".jpg") :
    q ∈ (convert_file co cw tr fs p b d).2.1 ↔ q ∈ fs := by
  constructor
  · intro h
    rcases convert_file_fs_new co cw tr fs p b d q h with h | h | h
    · exact h
    · exact absurd h hq1
    · exact absurd h hq2
  · exact convert_file_fs_mono co cw tr fs p b d q

theorem convert_file_dry_tuple (co : PPath → ToolResult) (cw : PPath → Bool)
    (tr : PPath → ToolResult) (fs : List PPath) (p : PPath) (b : String)
    (h1 : strStartsWith p.name "._" = false) (h2 : p.withSuffix ".opus" ∉ fs) :
    (convert_file co cw tr fs p b true).1 = (true, false, false) := by
  unfold convert_file
  simp [h1, h2]

theorem convert_file_real_success_tuple (co : PPath → ToolResult) (cw : PPath → Bool)
    (tr : PPath → ToolResult) (fs : List PPath) (p : PPath) (b : String)
    (h1 : strStartsWith p.name "._" = false) (h2 : p.withSuffix ".opus" ∉ fs)
    (htr : tr p = ToolResult.success) :
    (convert_file co cw tr fs p b false).1 = (true, false, false) := by
  unfold convert_file
  simp [h1, h2, htr]

/-- The three `countP` predicates that classify one dry-run task from the
starting filesystem: converted, skipped, errored. -/
def predConv (raises : PPath → Bool) (fs0 : List PPath) (p : PPath) : Bool :=
  !raises p && !strStartsWith p.name "._" && !(decide (p.withSuffix ".opus" ∈ fs0))

def predSkip (raises : PPath → Bool) (fs0 : List PPath) (p : PPath) : Bool :=
  !raises p && (strStartsWith p.name "._" || decide (p.withSuffix ".opus" ∈ fs0))

def predErr (raises : PPath → Bool) (p : PPath) : Bool :=
  raises p

/-- Dry-run counters are the `countP` of the three predicates over the
completion order, evaluated against the (unchanging) starting filesystem. -/
theorem runTasksFrom_dry_counts (co : PPath → ToolResult) (cw : PPath → Bool)
    (tr : PPath → ToolResult) (raises : PPath → Bool) (b : String)
    (order : List PPath) :
    ∀ st : RunState,
      (runTasksFrom co cw tr raises b true st order).converted =
          st.converted + order.countP (predConv raises st.fs) ∧
        (runTasksFrom co cw tr raises b true st order).skipped =
          st.skipped + order.countP (predSkip raises st.fs) ∧
        (runTasksFrom co cw tr raises b true st order).errors =
          st.errors + order.countP (predErr raises) := by
  induction order with
  | nil => intro st; simp [runTasksFrom_nil]
  | cons q rest ih =>
      intro st
      rw [runTasksFrom_cons]
      have hfs := stepTask_dry co cw tr raises b st q
      have hrec := ih (stepTask co cw tr raises b true st q)
      rw [hfs.1] at hrec
      by_cases hr : raises q = true
      · have hstep := stepTask_raise co cw tr raises b true st q hr
        rw [hstep] at hrec ⊢
        simp only [List.countP_cons]
        simp [predConv, predSkip, predErr, hr, hrec.1, hrec.2.1, hrec.2.2]
        omega
      · have hrf : raises q = false := by simpa using hr
        by_cases h1 : strStartsWith q.name "._" = true
        · have hstep : stepTask co cw tr raises b true st q =
              { st with skipped := st.skipped + 1 } := by
            simp [stepTask, hrf, convert_file_skip_sidecar co cw tr st.fs q b true h1]
          rw [hstep] at hrec ⊢
          simp only [List.countP_cons]
          simp [predConv, predSkip, predErr, hrf, h1, hrec.1, hrec.2.1, hrec.2.2]
          omega
        · have h1f : strStartsWith q.name "._" = false := by simpa using h1
          by_cases h2 : q.withSuffix ".opus" ∈ st.fs
          · have hstep : stepTask co cw tr raises b true st q =
                { st with skipped := st.skipped + 1 } := by
              simp [stepTask, hrf, convert_file_skip_exists co cw tr st.fs q b true h2]
            rw [hstep] at hrec ⊢
            simp only [List.countP_cons]
            simp [predConv, predSkip, predErr, hrf, h1f, h2, hrec.1, hrec.2.1, hrec.2.2]
            omega
          · have htup := convert_file_dry_tuple co cw tr st.fs q b h1f h2
            have hfs2 := convert_file_dry co cw tr st.fs q b
            have hstep : stepTask co cw tr raises b true st q =
                { st with converted := st.converted + 1 } := by
              unfold stepTask
              simp [hrf, htup, hfs2.1, hfs2.2]
            rw [hstep] at hrec ⊢
            simp only [List.countP_cons]
            simp [predConv, predSkip, predErr, hrf, h1f, h2, hrec.1, hrec.2.1, hrec.2.2]
            omega

/-- Real-run counters, when every transcode invocation succeeds and the
submitted files are pairwise distinct, are the same `countP` of the same
predicates over the starting filesystem. -/
theorem runTasksFrom_real_counts (co : PPath → ToolResult) (cw : PPath → Bool)
    (tr : PPath → ToolResult) (raises : PPath → Bool) (b : String)
    (htr : ∀ p, tr p = ToolResult.success) (order : List PPath) :
    ∀ st : RunState, ∀ fs0 : List PPath,
      List.Pairwise keyNe order →
      (∀ p ∈ order, (p.withSuffix ".opus" ∈ st.fs ↔ p.withSuffix ".opus" ∈ fs0)) →
      (runTasksFrom co cw tr raises b false st order).converted =
          st.converted + order.countP (predConv raises fs0) ∧
        (runTasksFrom co cw tr raises b false st order).skipped =
          st.skipped + order.countP (predSkip raises fs0) ∧
        (runTasksFrom co cw tr raises b false st order).errors =
          st.errors + order.countP (predErr raises) := by
  induction order with
  | nil => intro st fs0 _ _; simp [runTasksFrom_nil]
  | cons q rest ih =>
      intro st fs0 hpair hiff
      have hK : ∀ x ∈ rest, keyNe q x := (List.pairwise_cons.mp hpair).1
      have hprest : List.Pairwise keyNe rest := (List.pairwise_cons.mp hpair).2
      have hiffq := hiff q (List.mem_cons_self q rest)
      rw [runTasksFrom_cons]
      by_cases hr : raises q = true
      · have hstep := stepTask_raise co cw tr raises b false st q hr
        have hrec := ih { st with errors := st.errors + 1 } fs0 hprest
          (fun p hp => hiff p (List.mem_cons_of_mem q hp))
        rw [hstep]
        simp only [List.countP_cons]
        simp [predConv, predSkip, predErr, hr, hrec.1, hrec.2.1, hrec.2.2]
        omega
      · have hrf : raises q = false := by simpa using hr
        by_cases h1 : strStartsWith q.name "._" = true
        · have hstep : stepTask co cw tr raises b false st q =
              { st with skipped := st.skipped + 1 } := by
            simp [stepTask, hrf, convert_file_skip_sidecar co cw tr st.fs q b false h1]
          have hrec := ih { st with skipped := st.skipped + 1 } fs0 hprest
            (fun p hp => hiff p (List.mem_cons_of_mem q hp))
          rw [hstep]
          simp only [List.countP_cons]
          simp [predConv, predSkip, predErr, hrf, h1, hrec.1, hrec.2.1, hrec.2.2]
          omega
        · have h1f : strStartsWith q.name "._" = false := by simpa using h1
          by_cases h2 : q.withSuffix ".opus" ∈ st.fs
          · have h2' : q.withSuffix ".opus" ∈ fs0 := hiffq.mp h2
            have hstep : stepTask co cw tr raises b false st q =
                { st with skipped := st.skipped + 1 } := by
              simp [stepTask, hrf, convert_file_skip_exists co cw tr st.fs q b false h2]
            have hrec := ih { st with skipped := st.skipped + 1 } fs0 hprest
              (fun p hp => hiff p (List.mem_cons_of_mem q hp))
            rw [hstep]
            simp only [List.countP_cons]
            simp [predConv, predSkip, predErr, hrf, h1f, h2', hrec.1, hrec.2.1, hrec.2.2]
            omega
          · have h2' : q.withSuffix ".opus" ∉ fs0 := fun hh => h2 (hiffq.mpr hh)
            have htup := convert_file_real_success_tuple co cw tr st.fs q b h1f h2 (htr q)
            have hstep : stepTask co cw tr raises b false st q =
                { st with
                  fs := (convert_file co cw tr st.fs q b false).2.1
                  spawned := st.spawned ++ (convert_file co cw tr st.fs q b false).2.2
                  converted := st.converted + 1 } := by
              unfold stepTask
              simp [hrf, htup]
            have hiff2 : ∀ p ∈ rest,
                (p.withSuffix ".opus" ∈ (convert_file co cw tr st.fs q b false).2.1 ↔
                  p.withSuffix ".opus" ∈ fs0) := by
              intro p hp
              have hne1 : p.withSuffix ".opus" ≠ q.withSuffix ".opus" := by
                have : keyNe p q := by
                  rcases hK p hp with h | h
                  · exact Or.inl (Ne.symm h)
                  · exact Or.inr (Ne.symm h)
                exact withSuffix_ne_of_keyNe p q ".opus" this
              have hne2 : p.withSuffix ".opus" ≠ q.withSuffix ".jpg" :=
                withSuffix_ne_of_ext_ne p q ".opus" ".jpg" (by decide)
              rw [convert_file_fs_mem_iff co cw tr st.fs q b false _ hne1 hne2]
              exact hiff p (List.mem_cons_of_mem q hp)
            have hrec := ih { st with
                fs := (convert_file co cw tr st.fs q b false).2.1
                spawned := st.spawned ++ (convert_file co cw tr st.fs q b false).2.2
                converted := st.converted + 1 } fs0 hprest hiff2
            rw [hstep]
            simp only [List.countP_cons]
            simp [predConv, predSkip, predErr, hrf, h1f, h2', hrec.1, hrec.2.1, hrec.2.2]
            omega

/-- An `Errored` tuple can only come from the real-run transcode branch. -/
theorem convert_file_error_inv (co : PPath → ToolResult) (cw : PPath → Bool)
    (tr : PPath → ToolResult) (fs : List PPath) (p : PPath) (b : String) (d : Bool)
    (h : (convert_file co cw tr fs p b d).1 = (false, false, true)) :
    d = false ∧ tr p ≠ ToolResult.success := by
  unfold convert_file at h
  by_cases h1 : strStartsWith p.name "._" = true
  · simp [h1] at h
  · by_cases h2 : p.withSuffix ".opus" ∈ fs
    · simp [h1, h2] at h
    · cases d
      · cases htr : tr p <;> simp [h1, h2, htr] at h <;> simp [htr]
      · simp [h1, h2] at h

/-- The filesystem a task leaves behind is its additions (all `.opus` or
`.jpg` siblings) in front of the filesystem it saw. -/
theorem convert_file_fs_shape (co : PPath → ToolResult) (cw : PPath → Bool)
    (tr : PPath → ToolResult) (fs : List PPath) (p : PPath) (b : String) (d : Bool) :
    ∃ adds : List PPath, (convert_file co cw tr fs p b d).2.1 = adds ++ fs ∧
      ∀ q ∈ adds, q.ext = ".opus" ∨ q.ext = ".jpg" := by
  unfold convert_file extract_cover
  by_cases h1 : strStartsWith p.name "._" = true
  · exact ⟨[], by simp [h1]⟩
  · by_cases h2 : p.withSuffix ".opus" ∈ fs
    · exact ⟨[], by simp [h1, h2]⟩
    · by_cases h3 : p.withSuffix ".jpg" ∈ fs
      · cases d
        · cases htr : tr p
          · exact ⟨[p.withSuffix ".opus"], by simp [h1, h2, h3, htr]⟩
          · exact ⟨[], by simp [h1, h2, h3, htr]⟩
          · exact ⟨[], by simp [h1, h2, h3, htr]⟩
        · exact ⟨[], by simp [h1, h2, h3]⟩
      · cases d
        · cases hco : co p
          · by_cases h4 : cw p = true
            · cases htr : tr p
              · exact ⟨[p.withSuffix ".opus", p.withSuffix ".jpg"],
                  by simp [h1, h2, h3, h4, hco, htr]⟩
              · exact ⟨[p.withSuffix ".jpg"], by simp [h1, h2, h3, h4, hco, htr]⟩
              · exact ⟨[p.withSuffix ".jpg"], by simp [h1, h2, h3, h4, hco, htr]⟩
            · cases htr : tr p
              · exact ⟨[p.withSuffix ".opus"], by simp [h1, h2, h3, h4, hco, htr]⟩
              · exact ⟨[], by simp [h1, h2, h3, h4, hco, htr]⟩
              · exact ⟨[], by simp [h1, h2, h3, h4, hco, htr]⟩
          · cases htr : tr p
            · exact ⟨[p.withSuffix ".opus"], by simp [h1, h2, h3, hco, htr]⟩
            · exact ⟨[], by simp [h1, h2, h3, hco, htr]⟩
            · exact ⟨[], by simp [h1, h2, h3, hco, htr]⟩
          · cases htr : tr p
            · exact ⟨[p.withSuffix ".opus"], by simp [h1, h2, h3, hco, htr]⟩
            · exact ⟨[], by simp [h1, h2, h3, hco, htr]⟩
            · exact ⟨[], by simp [h1, h2, h3, hco, htr]⟩
        · exact ⟨[], by simp [h1, h2, h3]⟩

theorem stepTask_fs_shape (co : PPath → ToolResult) (cw : PPath → Bool)
    (tr : PPath → ToolResult) (raises : PPath → Bool) (b : String) (d : Bool)
    (st : RunState) (p : PPath) :
    ∃ adds : List PPath, (stepTask co cw tr raises b d st p).fs = adds ++ st.fs ∧
      ∀ q ∈ adds, q.ext = ".opus" ∨ q.ext = ".jpg" := by
  by_cases hr : raises p = true
  · exact ⟨[], by simp [stepTask_raise co cw tr raises b d st p hr]⟩
  · have hrf : raises p = false := by simpa using hr
    rw [stepTask_fs_eq co cw tr raises b d st p hrf]
    exact convert_file_fs_shape co cw tr st.fs p b d

theorem runTasksFrom_fs_shape (co : PPath → ToolResult) (cw : PPath → Bool)
    (tr : PPath → ToolResult) (raises : PPath → Bool) (b : String) (d : Bool)
    (order : List PPath) :
    ∀ st : RunState,
      ∃ adds : List PPath, (runTasksFrom co cw tr raises b d st order).fs = adds ++ st.fs ∧
        ∀ q ∈ adds, q.ext = ".opus" ∨ q.ext = ".jpg" := by
  induction order with
  | nil => intro st; exact ⟨[], by simp [runTasksFrom_nil]⟩
  | cons q rest ih =>
      intro st
      rw [runTasksFrom_cons]
      obtain ⟨adds1, h1, h1m⟩ := stepTask_fs_shape co cw tr raises b d st q
      obtain ⟨adds2, h2, h2m⟩ := ih (stepTask co cw tr raises b d st q)
      refine ⟨adds2 ++ adds1, ?_, ?_⟩
      · rw [h2, h1, List.append_assoc]
      · intro x hx
        rcases List.mem_append.mp hx with h | h
        · exact h2m x h
        · exact h1m x h

/-- Files added by a run are never `.flac` files, so discovery over the
post-run filesystem returns exactly the same list. -/
theorem gather_after_run (fsys : FileSys) (root : String) (co : PPath → ToolResult)
    (cw : PPath → Bool) (tr : PPath → ToolResult) (raises : PPath → Bool)
    (b : String) (d : Bool) (order : List PPath) :
    gather_flac_files
        (FileSys.mk (runTasks co cw tr raises b d fsys.files order).fs fsys.dirs) root =
      gather_flac_files fsys root := by
  obtain ⟨adds, hsh, hm⟩ := runTasksFrom_fs_shape co cw tr raises b d order
    { fs := fsys.files, spawned := [], converted := 0, skipped := 0, errors := 0 }
  unfold gather_flac_files runTasks
  simp only at hsh
  rw [hsh, List.filter_append adds fsys.files]
  have : adds.filter (fun p => strStartsWith p.dir root && p.ext == ".flac") = [] := by
    apply List.filter_eq_nil_iff.mpr
    intro a ha
    rcases hm a ha with h | h <;> simp [h]
  rw [this, List.nil_append]

theorem keyNe_symm (p q : PPath) (h : keyNe p q) : keyNe q p := by
  rcases h with h | h
  · exact Or.inl (Ne.symm h)
  · exact Or.inr (Ne.symm h)

/-- Distinct paths that share a suffix differ in directory or stem. -/
theorem keyNe_of_ne_of_ext_eq (p q : PPath) (hne : p ≠ q) (he : p.ext = q.ext) :
    keyNe p q := by
  by_contra hc
  unfold keyNe at hc
  push_neg at hc
  apply hne
  cases p; cases q
  simp_all

/-- Discovery over a duplicate-free filesystem yields pairwise-distinct
(directory, stem) keys: all results share the `.flac` suffix. -/
theorem gather_pairwise_keyNe (fsys : FileSys) (root : String)
    (h : fsys.files.Nodup) :
    List.Pairwise keyNe (gather_flac_files fsys root) := by
  have hnd : (gather_flac_files fsys root).Nodup := by
    unfold gather_flac_files
    exact h.filter _
  have hext : ∀ p ∈ gather_flac_files fsys root, p.ext = ".flac" := by
    intro p hp
    unfold gather_flac_files at hp
    have := (List.mem_filter.mp hp).2
    simp at this
    exact this.2
  exact hnd.imp_of_mem (fun ha hb hne =>
    keyNe_of_ne_of_ext_eq _ _ hne ((hext _ ha).trans (hext _ hb).symm))

/-! ### Concrete sample inputs used by the witness theorems -/

def sampleFlac : PPath := { dir := "r", stem := "a", ext := ".flac" }

def sampleFlacB : PPath := { dir := "r", stem := "b", ext := ".flac" }

def sampleUpper : PPath := { dir := "r", stem := "song", ext := ".FLAC" }

def sampleFS : FileSys := { files := [sampleFlac], dirs := ["r"] }

def allSuccess : PPath → ToolResult := fun _ => ToolResult.success

def allFailTool : PPath → ToolResult := fun _ => ToolResult.calledProcessError 1 "fail"

def noRaises : PPath → Bool := fun _ => false

def allRaises : PPath → Bool := fun _ => true

def writesCover : PPath → Bool := fun _ => true

/-! ### The claims -/

/-- Claim C5: for every input file, failure of cover extraction (tool
failure or any exception inside the `extract_cover` invocation, and equally
whether it wrote anything) never changes that file's classification:
`convert_file`'s tuple is identical for any two cover-extraction oracles,
because the result of `extract_cover` is discarded (source line 67) and its
exceptions are caught internally (source lines 44–46). -/
theorem claim_C5_cover_failure_harmless (co1 co2 : PPath → ToolResult)
    (cw1 cw2 : PPath → Bool) (tr : PPath → ToolResult) (fs : List PPath)
    (p : PPath) (b : String) (d : Bool) :
    (convert_file co1 cw1 tr fs p b d).1 = (convert_file co2 cw2 tr fs p b d).1 := by
  unfold convert_file
  by_cases h1 : strStartsWith p.name "._" = true
  · simp [h1]
  · by_cases h2 : p.withSuffix ".opus" ∈ fs
    · simp [h1, h2]
    · cases d
      · cases htr : tr p <;> simp [h1, h2, htr]
      · simp [h1, h2]

/-- Claim C6: the per-item policy is the strict first-match-wins sequence the
spec describes: sidecar filter, then existence skip, then best-effort cover
extraction, then the transcode attempt whose success/failure decides
Converted/Errored.  `policySpec` is written from the spec's words;
`convert_file` (in a real run) coincides with it on every input. -/
theorem claim_C6_policy_first_match (co : PPath → ToolResult) (cw : PPath → Bool)
    (tr : PPath → ToolResult) (fs : List PPath) (p : PPath) (b : String) :
    convert_file co cw tr fs p b false = policySpec co cw tr fs p b := rfl

/-- Claim C7: every tuple `convert_file` returns has exactly one of its three
booleans set, and the dispatcher classifies a task whose future raises as
Errored (one error-counter increment, nothing else changed). -/
theorem claim_C7_exactly_one_outcome (co : PPath → ToolResult) (cw : PPath → Bool)
    (tr : PPath → ToolResult) (fs : List PPath) (p : PPath) (b : String) (d : Bool)
    (raises : PPath → Bool) (st : RunState) (q : PPath) (hq : raises q = true) :
    oneHot (convert_file co cw tr fs p b d).1 = true ∧
      stepTask co cw tr raises b d st q = { st with errors := st.errors + 1 } :=
  ⟨convert_file_oneHot co cw tr fs p b d,
   stepTask_raise co cw tr raises b d st q hq⟩

/-- Claim C7 witness: instantiated at a concrete file, filesystem and raising
future. -/
theorem claim_C7_witness :
    oneHot (convert_file allSuccess writesCover allSuccess [] sampleFlac "192k" false).1 = true ∧
      stepTask allSuccess writesCover allSuccess allRaises "192k" false
          { fs := [], spawned := [], converted := 0, skipped := 0, errors := 0 } sampleFlac =
        { fs := [], spawned := [], converted := 0, skipped := 0, errors := 1 } :=
  claim_C7_exactly_one_outcome allSuccess writesCover allSuccess [] sampleFlac "192k" false
    allRaises { fs := [], spawned := [], converted := 0, skipped := 0, errors := 0 }
    sampleFlac rfl

/-- Claim C8: if the sibling `.jpg` already exists, `extract_cover` returns
the no-op result `False` immediately — the filesystem is untouched and no
external tool is invoked — and this is not an error: a per-item
classification can only be Errored through a failed real-run transcode. -/
theorem claim_C8_cover_skip_fast (co : PPath → ToolResult) (cw : PPath → Bool)
    (tr : PPath → ToolResult) (fs : List PPath) (p : PPath) (b : String) (d : Bool)
    (h : p.withSuffix ".jpg" ∈ fs) :
    extract_cover co cw fs p d = (false, fs, []) ∧
      ((convert_file co cw tr fs p b d).1 = (false, false, true) →
        d = false ∧ tr p ≠ ToolResult.success) := by
  constructor
  · unfold extract_cover
    simp [h]
  · exact convert_file_error_inv co cw tr fs p b d

/-- Claim C8 witness: a file whose cover already exists. -/
theorem claim_C8_witness :
    extract_cover allSuccess writesCover [sampleFlac.withSuffix ".jpg"] sampleFlac false =
        (false, [sampleFlac.withSuffix ".jpg"], []) ∧
      ((convert_file allSuccess writesCover allSuccess [sampleFlac.withSuffix ".jpg"]
          sampleFlac "192k" false).1 = (false, false, true) →
        false = false ∧ allSuccess sampleFlac ≠ ToolResult.success) :=
  claim_C8_cover_skip_fast allSuccess writesCover allSuccess
    [sampleFlac.withSuffix ".jpg"] sampleFlac "192k" false (by decide)

/-- Claim C9: discovery is case-sensitive on the extension: a path is
discovered exactly when it is a file in the subtree of the root whose suffix
is the lowercase `.flac`; a file with suffix `.FLAC` is never discovered. -/
theorem claim_C9_discovery_case_sensitive (fsys : FileSys) (root : String) (p : PPath) :
    (p ∈ gather_flac_files fsys root ↔
      p ∈ fsys.files ∧ strStartsWith p.dir root = true ∧ p.ext = ".flac") ∧
      (p.ext = ".FLAC" → p ∉ gather_flac_files fsys root) := by
  constructor
  · unfold gather_flac_files
    simp [List.mem_filter]
  · intro h hmem
    unfold gather_flac_files at hmem
    have := (List.mem_filter.mp hmem).2
    simp [h] at this

/-- Claim C9 witness: a filesystem holding `song.FLAC` and `b.flac`; only the
lowercase one is discovered. -/
theorem claim_C9_witness :
    (sampleUpper ∈ gather_flac_files { files := [sampleUpper, sampleFlacB], dirs := ["r"] } "r" ↔
      sampleUpper ∈ [sampleUpper, sampleFlacB] ∧
        strStartsWith sampleUpper.dir "r" = true ∧ sampleUpper.ext = ".flac") ∧
      (sampleUpper.ext = ".FLAC" →
        sampleUpper ∉ gather_flac_files { files := [sampleUpper, sampleFlacB], dirs := ["r"] } "r") :=
  claim_C9_discovery_case_sensitive { files := [sampleUpper, sampleFlacB], dirs := ["r"] } "r"
    sampleUpper

/-- Claim C10: in dry-run mode `convert_file` never returns the Errored
tuple, and every file that is not skipped (not a sidecar, output absent) is
classified Converted: the dry-run branch returns before the transcode
attempt. -/
theorem claim_C10_dry_never_errors (co : PPath → ToolResult) (cw : PPath → Bool)
    (tr : PPath → ToolResult) (fs : List PPath) (p : PPath) (b : String) :
    (convert_file co cw tr fs p b true).1 ≠ (false, false, true) ∧
      (strStartsWith p.name "._" = false → p.withSuffix ".opus" ∉ fs →
        (convert_file co cw tr fs p b true).1 = (true, false, false)) := by
  constructor
  · intro hc
    have := (convert_file_error_inv co cw tr fs p b true hc).1
    simp at this
  · exact convert_file_dry_tuple co cw tr fs p b

/-- Claim C10 witness: dry run of a fresh file under a failing tool is still
classified Converted. -/
theorem claim_C10_witness :
    (convert_file allFailTool writesCover allFailTool [] sampleFlac "192k" true).1 ≠
        (false, false, true) ∧
      (strStartsWith sampleFlac.name "._" = false → sampleFlac.withSuffix ".opus" ∉ [] →
        (convert_file allFailTool writesCover allFailTool [] sampleFlac "192k" true).1 =
          (true, false, false)) :=
  claim_C10_dry_never_errors allFailTool writesCover allFailTool [] sampleFlac "192k"

/-- Claim C1: for every completed run — any discovered list, any completion
order, any per-task results including futures that raise — the final counters
satisfy converted + skipped + errors = total discovered: each submitted task
contributes exactly one increment to exactly one counter, and a raising
future increments the error counter. -/
theorem claim_C1_outcome_conservation (fsys : FileSys) (root : String)
    (co : PPath → ToolResult) (cw : PPath → Bool) (tr : PPath → ToolResult)
    (raises : PPath → Bool) (b : String) (d : Bool) (order : List PPath)
    (hdir : fsys.dirs.contains root = true)
    (hperm : order.Perm (gather_flac_files fsys root)) :
    (mainRun fsys root co cw tr raises b d order).converted +
      (mainRun fsys root co cw tr raises b d order).skipped +
      (mainRun fsys root co cw tr raises b d order).errors =
      (gather_flac_files fsys root).length := by
  unfold mainRun
  have hdirm : root ∈ fsys.dirs := by
    simpa using hdir
  by_cases h0 : (gather_flac_files fsys root).length = 0
  · simp [hdirm, h0]
  · have hsum := runTasksFrom_sum co cw tr raises b d order
      { fs := fsys.files, spawned := [], converted := 0, skipped := 0, errors := 0 }
    have hlen := hperm.length_eq
    unfold runTasks
    simp only at hsum
    simp [hdirm, h0]
    omega

/-- Claim C1 witness: one discovered file, successful tool. -/
theorem claim_C1_witness :
    (mainRun sampleFS "r" allSuccess writesCover allSuccess noRaises "192k" false
        [sampleFlac]).converted +
      (mainRun sampleFS "r" allSuccess writesCover allSuccess noRaises "192k" false
        [sampleFlac]).skipped +
      (mainRun sampleFS "r" allSuccess writesCover allSuccess noRaises "192k" false
        [sampleFlac]).errors =
      (gather_flac_files sampleFS "r").length :=
  claim_C1_outcome_conservation sampleFS "r" allSuccess writesCover allSuccess noRaises
    "192k" false [sampleFlac] (by decide) (by decide)

/-- Claim C2: the process exit status is 1 exactly when the root argument is
not an existing directory or the final error count is nonzero, and is 0
otherwise (even when items were skipped); an invalid root exits 1 before any
discovery or conversion work. -/
theorem claim_C2_exit_code (fsys : FileSys) (root : String)
    (co : PPath → ToolResult) (cw : PPath → Bool) (tr : PPath → ToolResult)
    (raises : PPath → Bool) (b : String) (d : Bool) (order : List PPath) :
    ((mainRun fsys root co cw tr raises b d order).exitCode = 1 ↔
      (fsys.dirs.contains root = false ∨
        (mainRun fsys root co cw tr raises b d order).errors ≠ 0)) ∧
      ((mainRun fsys root co cw tr raises b d order).exitCode = 0 ∨
        (mainRun fsys root co cw tr raises b d order).exitCode = 1) ∧
      (fsys.dirs.contains root = false →
        (mainRun fsys root co cw tr raises b d order).discovered = none ∧
          (mainRun fsys root co cw tr raises b d order).spawned = [] ∧
          (mainRun fsys root co cw tr raises b d order).fsOut = fsys.files) := by
  unfold mainRun
  by_cases hdirm : root ∈ fsys.dirs
  · by_cases h0 : (gather_flac_files fsys root).length = 0
    · simp [hdirm, h0]
    · by_cases he : (runTasks co cw tr raises b d fsys.files order).errors = 0
      · simp [hdirm, h0, he]
      · simp [hdirm, h0, he]
  · simp [hdirm]

/-- Claim C2 witness: a failing transcoder on a valid root yields exit 1. -/
theorem claim_C2_witness :
    ((mainRun sampleFS "r" allSuccess writesCover allFailTool noRaises "192k" false
        [sampleFlac]).exitCode = 1 ↔
      (FileSys.dirs sampleFS |>.contains "r") = false ∨
        (mainRun sampleFS "r" allSuccess writesCover allFailTool noRaises "192k" false
          [sampleFlac]).errors ≠ 0) ∧
      ((mainRun sampleFS "r" allSuccess writesCover allFailTool noRaises "192k" false
          [sampleFlac]).exitCode = 0 ∨
        (mainRun sampleFS "r" allSuccess writesCover allFailTool noRaises "192k" false
          [sampleFlac]).exitCode = 1) ∧
      ((FileSys.dirs sampleFS |>.contains "r") = false →
        (mainRun sampleFS "r" allSuccess writesCover allFailTool noRaises "192k" false
            [sampleFlac]).discovered = none ∧
          (mainRun sampleFS "r" allSuccess writesCover allFailTool noRaises "192k" false
            [sampleFlac]).spawned = [] ∧
          (mainRun sampleFS "r" allSuccess writesCover allFailTool noRaises "192k" false
            [sampleFlac]).fsOut = sampleFS.files) :=
  claim_C2_exit_code sampleFS "r" allSuccess writesCover allFailTool noRaises "192k" false
    [sampleFlac]

/-- Claim C3 counterexample: with a transcoder that fails, a dry run and a
real run over the identical starting filesystem do NOT have the same
converted/skipped counts: the dry run classifies the file Converted, the
real run classifies it Errored. -/
theorem claim_C3_counterexample :
    ¬ ((mainRun sampleFS "r" allSuccess writesCover allFailTool noRaises "192k" true
          [sampleFlac]).converted =
        (mainRun sampleFS "r" allSuccess writesCover allFailTool noRaises "192k" false
          [sampleFlac]).converted ∧
      (mainRun sampleFS "r" allSuccess writesCover allFailTool noRaises "192k" true
          [sampleFlac]).skipped =
        (mainRun sampleFS "r" allSuccess writesCover allFailTool noRaises "192k" false
          [sampleFlac]).skipped) := by
  decide

/-- Claim C3 (amended): a dry run performs zero filesystem writes and zero
external process spawns; and provided every transcode invocation of the real
run succeeds, the dry run's summary has the same converted and skipped
counts as a real run over the identical starting filesystem (in either
completion order). -/
theorem claim_C3_dry_run_equiv (fsys : FileSys) (root : String)
    (co : PPath → ToolResult) (cw : PPath → Bool) (tr : PPath → ToolResult)
    (raises : PPath → Bool) (b : String) (orderD orderR : List PPath)
    (hnd : fsys.files.Nodup)
    (htr : ∀ p, tr p = ToolResult.success)
    (hpermD : orderD.Perm (gather_flac_files fsys root))
    (hpermR : orderR.Perm (gather_flac_files fsys root)) :
    (mainRun fsys root co cw tr raises b true orderD).fsOut = fsys.files ∧
      (mainRun fsys root co cw tr raises b true orderD).spawned = [] ∧
      (mainRun fsys root co cw tr raises b true orderD).converted =
        (mainRun fsys root co cw tr raises b false orderR).converted ∧
      (mainRun fsys root co cw tr raises b true orderD).skipped =
        (mainRun fsys root co cw tr raises b false orderR).skipped := by
  unfold mainRun runTasks
  by_cases hdirm : root ∈ fsys.dirs
  · by_cases h0 : (gather_flac_files fsys root).length = 0
    · simp [hdirm, h0]
    · have hdry := runTasksFrom_dry co cw tr raises b orderD
        { fs := fsys.files, spawned := [], converted := 0, skipped := 0, errors := 0 }
      have hdryC := runTasksFrom_dry_counts co cw tr raises b orderD
        { fs := fsys.files, spawned := [], converted := 0, skipped := 0, errors := 0 }
      have hpairR : List.Pairwise keyNe orderR :=
        (hpermR.pairwise_iff fun hab => keyNe_symm _ _ hab).mpr
          (gather_pairwise_keyNe fsys root hnd)
      have hrealC := runTasksFrom_real_counts co cw tr raises b htr orderR
        { fs := fsys.files, spawned := [], converted := 0, skipped := 0, errors := 0 }
        fsys.files hpairR (fun p _ => Iff.rfl)
      simp only at hdry hdryC hrealC
      have hcntConv :
          orderD.countP (predConv raises fsys.files) =
            orderR.countP (predConv raises fsys.files) := by
        rw [hpermD.countP_eq, hpermR.countP_eq]
      have hcntSkip :
          orderD.countP (predSkip raises fsys.files) =
            orderR.countP (predSkip raises fsys.files) := by
        rw [hpermD.countP_eq, hpermR.countP_eq]
      simp [hdirm, h0, hdry.1, hdry.2]
      omega
  · simp [hdirm]

/-- Claim C3 witness: one fresh file, successful tool, dry versus real. -/
theorem claim_C3_witness :
    (mainRun sampleFS "r" allSuccess writesCover allSuccess noRaises "192k" true
        [sampleFlac]).fsOut = sampleFS.files ∧
      (mainRun sampleFS "r" allSuccess writesCover allSuccess noRaises "192k" true
        [sampleFlac]).spawned = [] ∧
      (mainRun sampleFS "r" allSuccess writesCover allSuccess noRaises "192k" true
          [sampleFlac]).converted =
        (mainRun sampleFS "r" allSuccess writesCover allSuccess noRaises "192k" false
          [sampleFlac]).converted ∧
      (mainRun sampleFS "r" allSuccess writesCover allSuccess noRaises "192k" true
          [sampleFlac]).skipped =
        (mainRun sampleFS "r" allSuccess writesCover allSuccess noRaises "192k" false
          [sampleFlac]).skipped :=
  claim_C3_dry_run_equiv sampleFS "r" allSuccess writesCover allSuccess noRaises "192k"
    [sampleFlac] [sampleFlac] (by decide) (fun _ => rfl) (by decide) (by decide)

/-- Claim C4: if a first (real) run ends with zero errors and the directory
is unchanged except for that run's outputs, then a second run discovers the
same files, converts none, skips all of them, errors on none, writes nothing
and spawns nothing: re-running never re-produces an existing output. -/
theorem claim_C4_idempotence (fsys : FileSys) (root : String)
    (co : PPath → ToolResult) (cw : PPath → Bool) (tr : PPath → ToolResult)
    (raises : PPath → Bool) (b : String)
    (co2 : PPath → ToolResult) (cw2 : PPath → Bool) (tr2 : PPath → ToolResult)
    (b2 : String) (order1 order2 : List PPath) (fs1 : List PPath)
    (hperm1 : order1.Perm (gather_flac_files fsys root))
    (hfs1 : fs1 = (runTasks co cw tr raises b false fsys.files order1).fs)
    (herr : (runTasks co cw tr raises b false fsys.files order1).errors = 0)
    (hperm2 : order2.Perm (gather_flac_files (FileSys.mk fs1 fsys.dirs) root)) :
    gather_flac_files (FileSys.mk fs1 fsys.dirs) root = gather_flac_files fsys root ∧
      (runTasks co2 cw2 tr2 (fun _ => false) b2 false fs1 order2).converted = 0 ∧
      (runTasks co2 cw2 tr2 (fun _ => false) b2 false fs1 order2).skipped =
        (gather_flac_files fsys root).length ∧
      (runTasks co2 cw2 tr2 (fun _ => false) b2 false fs1 order2).errors = 0 ∧
      (runTasks co2 cw2 tr2 (fun _ => false) b2 false fs1 order2).fs = fs1 ∧
      (runTasks co2 cw2 tr2 (fun _ => false) b2 false fs1 order2).spawned = [] := by
  have hgather : gather_flac_files (FileSys.mk fs1 fsys.dirs) root =
      gather_flac_files fsys root := by
    rw [hfs1]
    exact gather_after_run fsys root co cw tr raises b false order1
  have hskip1 : ∀ p ∈ order1, strStartsWith p.name "._" = true ∨
      p.withSuffix ".opus" ∈ fs1 := by
    rw [hfs1]
    unfold runTasks at herr ⊢
    exact runTasksFrom_no_new_errors co cw tr raises b order1
      { fs := fsys.files, spawned := [], converted := 0, skipped := 0, errors := 0 }
      (by simpa using herr)
  have hskip2 : ∀ p ∈ order2, strStartsWith p.name "._" = true ∨
      p.withSuffix ".opus" ∈ fs1 := by
    intro p hp
    have hpg : p ∈ gather_flac_files fsys root := by
      rw [← hgather]
      exact hperm2.mem_iff.mp hp
    exact hskip1 p (hperm1.mem_iff.mpr hpg)
  have hlen2 : order2.length = (gather_flac_files fsys root).length := by
    rw [hperm2.length_eq, hgather]
  have hrun2 := runTasksFrom_all_skip co2 cw2 tr2 b2 false order2
    { fs := fs1, spawned := [], converted := 0, skipped := 0, errors := 0 }
    (by simpa using hskip2)
  unfold runTasks
  rw [hrun2]
  simp [hgather, hlen2]

/-- Claim C4 witness: a concrete first run over one file followed by a
second run over its output. -/
theorem claim_C4_witness :
    gather_flac_files
        (FileSys.mk (runTasks allSuccess writesCover allSuccess noRaises "192k" false
          sampleFS.files [sampleFlac]).fs sampleFS.dirs) "r" =
        gather_flac_files sampleFS "r" ∧
      (runTasks allSuccess writesCover allSuccess (fun _ => false) "192k" false
        (runTasks allSuccess writesCover allSuccess noRaises "192k" false
          sampleFS.files [sampleFlac]).fs [sampleFlac]).converted = 0 ∧
      (runTasks allSuccess writesCover allSuccess (fun _ => false) "192k" false
        (runTasks allSuccess writesCover allSuccess noRaises "192k" false
          sampleFS.files [sampleFlac]).fs [sampleFlac]).skipped =
        (gather_flac_files sampleFS "r").length ∧
      (runTasks allSuccess writesCover allSuccess (fun _ => false) "192k" false
        (runTasks allSuccess writesCover allSuccess noRaises "192k" false
          sampleFS.files [sampleFlac]).fs [sampleFlac]).errors = 0 ∧
      (runTasks allSuccess writesCover allSuccess (fun _ => false) "192k" false
        (runTasks allSuccess writesCover allSuccess noRaises "192k" false
          sampleFS.files [sampleFlac]).fs [sampleFlac]).fs =
        (runTasks allSuccess writesCover allSuccess noRaises "192k" false
          sampleFS.files [sampleFlac]).fs ∧
      (runTasks allSuccess writesCover allSuccess (fun _ => false) "192k" false
        (runTasks allSuccess writesCover allSuccess noRaises "192k" false
          sampleFS.files [sampleFlac]).fs [sampleFlac]).spawned = [] :=
  claim_C4_idempotence sampleFS "r" allSuccess writesCover allSuccess noRaises "192k"
    allSuccess writesCover allSuccess "192k" [sampleFlac] [sampleFlac]
    (runTasks allSuccess writesCover allSuccess noRaises "192k" false
      sampleFS.files [sampleFlac]).fs
    (by decide) rfl (by decide) (by decide)
